import Mathlib

/-!
Verification of certmon (brawer/certmon), a monitor for TLS certificate
expiration dates. The Go sources consist of certmon.go (the core: the
prober FindExpirationTime, the per-domain monitoring loops started by
NewCertMon, and the status page handler HandleStatus) and a main.go that
only wires flags and HTTP routes.

The shallow embedding below models:
  - Go time.Time values as integers (seconds since the Go zero instant
    0001-01-01T00:00:00 UTC), with the zero value time.Time{} as 0 and
    Unix() subtracting the epoch offset 62135596800;
  - the outcome of tls.Dial plus VerifyHostname as an inductive
    ConnOutcome (dial failure, hostname-verification failure, or a
    verified connection carrying the NotAfter instants of the presented
    certificate chain);
  - the map cm.expirations as a function from domain strings to
    Option Time (none = key absent);
  - one cycle of the per-domain monitoring goroutine as the list of
    externally visible actions it performs, in program order, plus the
    table update it applies;
  - HandleStatus as the sorted list of table rows it renders, taking the
    (arbitrary) order in which the Go map range yields the keys as an
    explicit parameter, and as an event trace for the lock discipline.
-/

namespace Certmon


/-- Go time.Time instants, modelled as integer seconds since the Go zero
instant 0001-01-01T00:00:00 UTC. Comparison of instants (time.Time.Before,
equality) is the integer order. -/
abbrev Time := Int

/-- The Go zero value time.Time\x7b\x7d, returned by FindExpirationTime on
every error path and stored in the table before the first probe. -/
def zeroTime : Time := 0

/-- Seconds between 0001-01-01T00:00:00 UTC and the Unix epoch
1970-01-01T00:00:00 UTC; the offset used by time.Time.Unix. -/
def unixToInternal : Int := 62135596800

/-- Embedding of time.Time.Unix: seconds since the Unix epoch. -/
def timeUnix (t : Time) : Int := t - unixToInternal

/-- Embedding of time.Time.Before. -/
def timeBefore (a b : Time) : Bool := a < b

/-- The instant 2025-06-01T00:00:00Z (Unix 1748736000), used in the worked
example of the specification. -/
def t2025 : Time := unixToInternal + 1748736000

/-- The instant 2030-01-01T00:00:00Z (Unix 1893456000), used in the worked
example of the specification. -/
def t2030 : Time := unixToInternal + 1893456000

/-- Outcome of tls.Dial("tcp", host+":443", nil) followed by
conn.VerifyHostname(host), as observed by FindExpirationTime: the dial can
fail, hostname verification can fail, or both succeed and the connection
state carries the presented certificate chain, of which only the NotAfter
field of each certificate matters here. -/
inductive ConnOutcome
  | dialError
  | verifyError
  | verified (notAfters : List Time)
deriving DecidableEq, Repr

/-- Result of FindExpirationTime: ok t is the pair (t, nil); error is the
pair (time.Time\x7b\x7d, err) returned on the two error paths; crash models
the Go runtime panic raised by an out-of-bounds index. -/
inductive ProbeResult
  | ok (t : Time)
  | error
  | crash
deriving DecidableEq, Repr

/-- Embedding of the loop in FindExpirationTime: starting from the NotAfter
of the first certificate, replace the running value by each later
certificate NotAfter that is Before it. -/
def chainMin (head : Time) (rest : List Time) : Time :=
  rest.foldl (fun exp t => if timeBefore t exp then t else exp) head

/-- Embedding of FindExpirationTime host: on dial failure or hostname
verification failure it returns (time.Time\x7b\x7d, err); otherwise it reads
PeerCertificates[0].NotAfter — an out-of-bounds index, hence a runtime
panic, when the chain is empty — and folds the rest of the chain with
Before to the earliest NotAfter. -/
def FindExpirationTime (conn : ConnOutcome) : ProbeResult :=
  match conn with
  | .dialError => .error
  | .verifyError => .error
  | .verified [] => .crash
  | .verified (c :: cs) => .ok (chainMin c cs)

/-- The map cm.expirations, modelled as a function from domain strings to
Option Time; none means the key is absent from the Go map. -/
def Table := String → Option Time

/-- The freshly made empty map. -/
def emptyTable : Table := fun _ => none

/-- Embedding of the Go map assignment m[k] = v: inserts or overwrites the
single key k. -/
def mapSet (table : Table) (d : String) (t : Time) : Table :=
  fun k => if k = d then some t else table k

/-- Embedding of map reads m[k] in HandleStatus: a missing key yields the
zero value, as in Go. -/
def lookupExp (table : Table) (d : String) : Time :=
  (table d).getD zeroTime

/-- The table built by NewCertMon before any goroutine runs: for each
configured domain, in order, cm.expirations[domain] = time.Time\x7b\x7d. -/
def NewCertMonTable (domains : List String) : Table :=
  domains.foldl (fun t d => mapSet t d zeroTime) emptyTable

/-- NewCertMon spawns one monitoring goroutine per element of the domains
list, and the goroutine spawned for an element writes exactly that domain
key; so this counts the goroutines that write key k. -/
def monitorsWriting (domains : List String) (k : String) : Nat :=
  domains.count k

/-- The value the statement exp, _ := FindExpirationTime(dom) binds to exp:
the error is discarded; on the two error paths the function returned the
zero time. On the crash path the goroutine dies, so there is no value. -/
def probedTime : ProbeResult → Option Time
  | .ok t => some t
  | .error => some zeroTime
  | .crash => none

/-- One externally visible action of a monitoring-goroutine cycle:
setGauge is certExpirations.WithLabelValues(dom).Set(value), the push to
the Prometheus gauge; setTable is the assignment cm.expirations[dom] = exp
performed under the mutex. -/
inductive Action
  | setGauge (domain : String) (valueUnixSeconds : Int)
  | setTable (domain : String) (t : Time)
deriving DecidableEq, Repr

/-- The actions one cycle of the monitoring goroutine for dom performs
after its tick and jitter sleep, in program order: it always first sets
the gauge to float64(exp.Unix()) and then stores exp in the table. On the
crash path the goroutine dies before either action. -/
def monitorCycleActions (dom : String) (conn : ConnOutcome) : List Action :=
  match probedTime (FindExpirationTime conn) with
  | some exp => [Action.setGauge dom (timeUnix exp), Action.setTable dom exp]
  | none => []

/-- The table after one cycle of the monitoring goroutine for dom: the
entry for dom is overwritten with whatever exp the cycle bound (the probed
minimum on success, the zero time on error); on the crash path the table
is untouched. -/
def monitorCycleTable (dom : String) (conn : ConnOutcome) (table : Table) : Table :=
  match probedTime (FindExpirationTime conn) with
  | some exp => mapSet table dom exp
  | none => table

/-- Lexicographic comparison of character sequences by code point; the
meaning of the Go string comparison domains[i] < domains[j] (Go compares
bytes; on the ASCII domain names involved byte order and code-point order
coincide). -/
def goStrLtChars : List Char → List Char → Bool
  | [], [] => false
  | [], _ :: _ => true
  | _ :: _, [] => false
  | a :: as, b :: bs =>
    if a.toNat < b.toNat then true
    else if b.toNat < a.toNat then false
    else goStrLtChars as bs

/-- Embedding of the Go string comparison d1 < d2. -/
def goStrLt (d1 d2 : String) : Bool := goStrLtChars d1.data d2.data

/-- The comparison closure HandleStatus passes to sort.Slice: compare the
expirations read from the live map with Before when they differ, and the
domain strings otherwise. -/
def statusLess (table : Table) (d1 d2 : String) : Bool :=
  if lookupExp table d1 ≠ lookupExp table d2
  then timeBefore (lookupExp table d1) (lookupExp table d2)
  else goStrLt d1 d2

/-- Insertion of an element into a list already ordered by the comparator
less: walk past the elements that are less than it. -/
def insertBy {α : Type} (less : α → α → Bool) (a : α) : List α → List α
  | [] => [a]
  | b :: l => if less b a then b :: insertBy less a l else a :: b :: l

/-- The sorting performed by the sort.Slice call in HandleStatus. The
comparator used there is a strict total order on the (distinct) map keys,
under which every correctly sorted permutation is the same list, so the
unspecified algorithm behind sort.Slice is modelled by insertion sort. -/
def sortSlice {α : Type} (less : α → α → Bool) : List α → List α
  | [] => []
  | a :: l => insertBy less a (sortSlice less l)

/-- The sorted domain list HandleStatus builds: the keys of cm.expirations
as yielded by the Go map range (the order iter is an arbitrary permutation
of the keys), sorted by sort.Slice with the statusLess closure. -/
def sortDomains (table : Table) (iter : List String) : List String :=
  sortSlice (statusLess table) iter

/-- The data rows HandleStatus writes, in output order: each sorted domain
paired with the expiration read from the live map inside the output loop.
The constant HTML text before, between and after the rows carries no data
and is omitted. -/
def handleStatusRows (table : Table) (iter : List String) : List (String × Time) :=
  (sortDomains table iter).map (fun d => (d, lookupExp table d))

/-- HandleStatus as a state transformer on the CertMon state: the body
only reads cm.expirations (the mutex is locked and unlocked around it, and
nothing is assigned), so it leaves the table it read behind, next to the
rows it rendered. -/
def handleStatus (table : Table) (iter : List String) : Table × List (String × Time) :=
  (table, handleStatusRows table iter)

/-- Modelled from the spec wording of the required report order: ascending
by expiration timestamp, ties broken by ascending lexicographic domain
name. -/
def specRowOrder (r1 r2 : String × Time) : Prop :=
  r1.2 < r2.2 ∨ (r1.2 = r2.2 ∧ goStrLt r1.1 r2.1 = true)

/-- The table of the worked example of the specification, built through
the code paths: NewCertMon with domains b.example, a.example, c.example,
then a successful probe cycle storing t2030 for b.example and one storing
t2025 for a.example; c.example is never probed. -/
def exampleTable : Table :=
  monitorCycleTable "a.example" (ConnOutcome.verified [t2025])
    (monitorCycleTable "b.example" (ConnOutcome.verified [t2030])
      (NewCertMonTable ["b.example", "a.example", "c.example"]))

/-- One observable event of the HandleStatus body: acquiring or releasing
cm.mutex, reading the cm.expirations map, or writing to the
http.ResponseWriter through fmt.Fprintf. -/
inductive Ev
  | lock
  | unlock
  | readTable
  | write
deriving DecidableEq, Repr

/-- A run of n map-read events: the reads that collect the keys into the
domains slice, and likewise the reads issued by the comparator calls of
sort.Slice. -/
def readEvs : Nat → List Ev
  | 0 => []
  | n + 1 => Ev.readTable :: readEvs n

/-- The per-row events of the output loop of HandleStatus: the map read
exp := cm.expirations[domain] followed by the Fprintf of the row. -/
def rowEvs : Nat → List Ev
  | 0 => []
  | n + 1 => Ev.readTable :: Ev.write :: rowEvs n

/-- The event trace of one HandleStatus call on a table of n domains whose
sort.Slice issues s comparator map reads, in program order: the mutex is
locked on entry and — the unlock being deferred — released only on return,
after the key collection, the sort, the header write, the n rows and the
footer write. -/
def handleStatusTrace (n s : Nat) : List Ev :=
  Ev.lock ::
    ((readEvs n ++ readEvs s ++ (Ev.write :: rowEvs n) ++ [Ev.write]) ++ [Ev.unlock])

/-- Annotation of every event of a trace with whether the mutex is held
at the moment the event happens, given whether it is held on entry. -/
def annotate : Bool → List Ev → List (Ev × Bool)
  | _, [] => []
  | held, e :: rest =>
    (e, held) ::
      annotate (match e with | Ev.lock => true | Ev.unlock => false | _ => held) rest

theorem chainMin_cons (c t : Time) (ts : List Time) :
    chainMin c (t :: ts) = chainMin (if timeBefore t c then t else c) ts := rfl

theorem chainMin_mem : ∀ (cs : List Time) (c : Time), chainMin c cs ∈ c :: cs
  | [], c => by simp [chainMin]
  | t :: ts, c => by
    rw [chainMin_cons]
    have h := chainMin_mem ts (if timeBefore t c then t else c)
    rcases List.mem_cons.mp h with h1 | h1
    · rw [h1]
      split <;> simp
    · simp [h1]

theorem chainMin_le : ∀ (cs : List Time) (c : Time), ∀ x ∈ c :: cs, chainMin c cs ≤ x
  | [], c => by simp [chainMin]
  | t :: ts, c => by
    intro x hx
    rw [chainMin_cons]
    have hhead : chainMin (if timeBefore t c then t else c) ts
        ≤ (if timeBefore t c then t else c) :=
      chainMin_le ts _ _ (List.mem_cons_self _ _)
    rcases List.mem_cons.mp hx with h1 | h1
    · subst h1
      refine hhead.trans ?_
      split
      · next hb => exact le_of_lt (by simpa [timeBefore] using hb)
      · exact le_refl _
    rcases List.mem_cons.mp h1 with h2 | h2
    · subst h2
      refine hhead.trans ?_
      split
      · exact le_refl _
      · next hb => exact le_of_not_lt (by simpa [timeBefore] using hb)
    · exact chainMin_le ts _ _ (List.mem_cons_of_mem _ h2)

theorem goStrLtChars_asymm :
    ∀ x y, goStrLtChars x y = true → goStrLtChars y x = false
  | [], [] => by simp [goStrLtChars]
  | [], _ :: _ => by simp [goStrLtChars]
  | _ :: _, [] => by simp [goStrLtChars]
  | a :: as, b :: bs => by
    intro h
    rcases Nat.lt_trichotomy a.toNat b.toNat with hab | hab | hab
    · simp [goStrLtChars, Nat.lt_asymm hab, hab]
    · have h1 : ¬ a.toNat < b.toNat := by omega
      have h2 : ¬ b.toNat < a.toNat := by omega
      simp only [goStrLtChars, if_neg h1, if_neg h2] at h ⊢
      exact goStrLtChars_asymm as bs h
    · simp [goStrLtChars, Nat.lt_asymm hab, hab] at h

theorem goStrLtChars_trans :
    ∀ x y z, goStrLtChars x y = true → goStrLtChars y z = true →
      goStrLtChars x z = true
  | [], [], _ => by simp [goStrLtChars]
  | [], _ :: _, [] => by simp [goStrLtChars]
  | [], _ :: _, _ :: _ => by simp [goStrLtChars]
  | _ :: _, [], _ => by simp [goStrLtChars]
  | _ :: _, _ :: _, [] => by simp [goStrLtChars]
  | a :: as, b :: bs, c :: cs => by
    intro h1 h2
    rcases Nat.lt_trichotomy a.toNat b.toNat with hab | hab | hab
    · rcases Nat.lt_trichotomy b.toNat c.toNat with hbc | hbc | hbc
      · have hac : a.toNat < c.toNat := by omega
        simp [goStrLtChars, hac]
      · have hac : a.toNat < c.toNat := by omega
        simp [goStrLtChars, hac]
      · simp [goStrLtChars, Nat.lt_asymm hbc, hbc] at h2
    · rcases Nat.lt_trichotomy b.toNat c.toNat with hbc | hbc | hbc
      · have hac : a.toNat < c.toNat := by omega
        simp [goStrLtChars, hac]
      · have hn1 : ¬ a.toNat < b.toNat := by omega
        have hn2 : ¬ b.toNat < a.toNat := by omega
        have hn3 : ¬ b.toNat < c.toNat := by omega
        have hn4 : ¬ c.toNat < b.toNat := by omega
        have hn5 : ¬ a.toNat < c.toNat := by omega
        have hn6 : ¬ c.toNat < a.toNat := by omega
        simp only [goStrLtChars, if_neg hn1, if_neg hn2, if_neg hn3,
          if_neg hn4, if_neg hn5, if_neg hn6] at h1 h2 ⊢
        exact goStrLtChars_trans as bs cs h1 h2
      · simp [goStrLtChars, Nat.lt_asymm hbc, hbc] at h2
    · simp [goStrLtChars, Nat.lt_asymm hab, hab] at h1

theorem goStrLtChars_eq_of_not :
    ∀ x y, goStrLtChars x y = false → goStrLtChars y x = false → x = y
  | [], [] => by simp
  | [], _ :: _ => by simp [goStrLtChars]
  | _ :: _, [] => by simp [goStrLtChars]
  | a :: as, b :: bs => by
    intro h1 h2
    rcases Nat.lt_trichotomy a.toNat b.toNat with hab | hab | hab
    · simp [goStrLtChars, hab] at h1
    · have hn1 : ¬ a.toNat < b.toNat := by omega
      have hn2 : ¬ b.toNat < a.toNat := by omega
      simp only [goStrLtChars, if_neg hn1, if_neg hn2] at h1 h2
      have hchar : a = b := by
        rw [← Char.ofNat_toNat a, ← Char.ofNat_toNat b, hab]
      rw [hchar, goStrLtChars_eq_of_not as bs h1 h2]
    · simp [goStrLtChars, hab] at h2

theorem goStrLt_asymm (d1 d2 : String) (h : goStrLt d1 d2 = true) :
    goStrLt d2 d1 = false :=
  goStrLtChars_asymm _ _ h

theorem goStrLt_trans (d1 d2 d3 : String) (h1 : goStrLt d1 d2 = true)
    (h2 : goStrLt d2 d3 = true) : goStrLt d1 d3 = true :=
  goStrLtChars_trans _ _ _ h1 h2

theorem goStrLt_eq_of_not (d1 d2 : String) (h1 : goStrLt d1 d2 = false)
    (h2 : goStrLt d2 d1 = false) : d1 = d2 :=
  String.ext (goStrLtChars_eq_of_not _ _ h1 h2)

/-- C2: for every non-empty certificate chain presented by a successful,
hostname-verified handshake, FindExpirationTime returns, with a nil error,
the minimum NotAfter over all certificates of the chain, not merely the
leaf NotAfter. -/
theorem findExpirationTime_returns_chain_minimum (c : Time) (cs : List Time) :
    FindExpirationTime (ConnOutcome.verified (c :: cs)) = ProbeResult.ok (chainMin c cs)
    ∧ chainMin c cs ∈ c :: cs
    ∧ ∀ x ∈ c :: cs, chainMin c cs ≤ x :=
  ⟨rfl, chainMin_mem cs c, chainMin_le cs c⟩

/-- Witness for C2 on the chain [t2030, t2025]: the probed value is the
non-leaf minimum t2025. -/
theorem findExpirationTime_returns_chain_minimum_witness :
    FindExpirationTime (ConnOutcome.verified [t2030, t2025]) = ProbeResult.ok t2025
    ∧ chainMin t2030 [t2025] ≤ t2030 := by
  have h := findExpirationTime_returns_chain_minimum t2030 [t2025]
  refine ⟨?_, h.2.2 t2030 (by decide)⟩
  have he : chainMin t2030 [t2025] = t2025 := by decide
  rw [h.1, he]

/-- C3 counterexample: on a verified connection presenting an empty
certificate chain, FindExpirationTime does not return an error; it crashes
with an out-of-bounds index on PeerCertificates[0]. -/
theorem findExpirationTime_empty_chain_cex :
    FindExpirationTime (ConnOutcome.verified []) = ProbeResult.crash
    ∧ FindExpirationTime (ConnOutcome.verified []) ≠ ProbeResult.error := by
  decide

/-- C3 amended: FindExpirationTime crashes (out-of-bounds index on
PeerCertificates[0], a Go runtime panic) exactly on the empty verified
chain, instead of returning an error there; every other outcome yields a
value or an error without crashing. In the Go tls package a hostname-
verified client handshake always presents at least one certificate, so the
crash path cannot be reached through tls.Dial plus VerifyHostname. -/
theorem findExpirationTime_crash_iff_empty_chain (conn : ConnOutcome) :
    FindExpirationTime conn = ProbeResult.crash ↔ conn = ConnOutcome.verified [] := by
  cases conn with
  | dialError => simp [FindExpirationTime]
  | verifyError => simp [FindExpirationTime]
  | verified certs => cases certs <;> simp [FindExpirationTime]

/-- Witness for C3 amended at the empty chain. -/
theorem findExpirationTime_crash_iff_empty_chain_witness :
    FindExpirationTime (ConnOutcome.verified []) = ProbeResult.crash :=
  (findExpirationTime_crash_iff_empty_chain (ConnOutcome.verified [])).mpr rfl

/-- C7: FindExpirationTime returns an error exactly when the dial fails or
hostname verification fails — verification failure is never silently
ignored — and otherwise (given the tls-package guarantee that a verified
handshake presents at least one certificate, i.e. the outcome is not a
verified empty chain) it returns a timestamp with no error. -/
theorem findExpirationTime_error_iff (conn : ConnOutcome)
    (hne : conn ≠ ConnOutcome.verified []) :
    (FindExpirationTime conn = ProbeResult.error
      ↔ conn = ConnOutcome.dialError ∨ conn = ConnOutcome.verifyError)
    ∧ (FindExpirationTime conn = ProbeResult.error
      ∨ ∃ t, FindExpirationTime conn = ProbeResult.ok t) := by
  cases conn with
  | dialError => exact ⟨by simp [FindExpirationTime], Or.inl rfl⟩
  | verifyError => exact ⟨by simp [FindExpirationTime], Or.inl rfl⟩
  | verified certs =>
    cases certs with
    | nil => exact absurd rfl hne
    | cons c cs =>
      exact ⟨by simp [FindExpirationTime], Or.inr ⟨chainMin c cs, rfl⟩⟩

/-- Witness for C7 at a verified one-certificate chain. -/
theorem findExpirationTime_error_iff_witness :
    (ConnOutcome.verified [t2030] ≠ ConnOutcome.verified [])
    ∧ ((FindExpirationTime (ConnOutcome.verified [t2030]) = ProbeResult.error
        ↔ ConnOutcome.verified [t2030] = ConnOutcome.dialError
          ∨ ConnOutcome.verified [t2030] = ConnOutcome.verifyError)
      ∧ (FindExpirationTime (ConnOutcome.verified [t2030]) = ProbeResult.error
        ∨ ∃ t, FindExpirationTime (ConnOutcome.verified [t2030]) = ProbeResult.ok t)) :=
  ⟨by decide, findExpirationTime_error_iff (ConnOutcome.verified [t2030]) (by decide)⟩

/-- C1 counterexample: for the single configured domain x.example, after a
successful probe stored t2030, one failed probe cycle (dial error) leaves
the table entry equal to the zero time, not to its previous value t2030:
the failed cycle overwrites the entry with the zero sentinel. -/
theorem monitorCycle_failed_probe_overwrite_cex :
    (monitorCycleTable "x.example" (ConnOutcome.verified [t2030])
        (NewCertMonTable ["x.example"])) "x.example" = some t2030
    ∧ (monitorCycleTable "x.example" ConnOutcome.dialError
        (monitorCycleTable "x.example" (ConnOutcome.verified [t2030])
          (NewCertMonTable ["x.example"]))) "x.example" = some zeroTime
    ∧ some zeroTime ≠ some t2030 := by
  decide

/-- C1 amended: on a failed probe (dial error or hostname-verification
error) the monitoring cycle overwrites the table entry of its domain with
the Go zero time, discarding the previous value; the error itself is
dropped by the blank assignment exp, _ := FindExpirationTime(dom). -/
theorem monitorCycle_failed_probe_writes_zeroTime (dom : String) (table : Table) :
    (monitorCycleTable dom ConnOutcome.dialError table) dom = some zeroTime
    ∧ (monitorCycleTable dom ConnOutcome.verifyError table) dom = some zeroTime := by
  constructor <;>
    simp [monitorCycleTable, probedTime, FindExpirationTime, mapSet]

/-- C10: every non-crashing monitoring cycle first pushes
float64(exp.Unix()) to the gauge and only then updates the table (the list
is program order); in particular on a failed probe the gauge is set — not
skipped — to the Unix seconds of the zero time, which is -62135596800. -/
theorem monitorCycle_sets_gauge_unconditionally_before_table
    (dom : String) (c : Time) (cs : List Time) :
    monitorCycleActions dom ConnOutcome.dialError
      = [Action.setGauge dom (-62135596800), Action.setTable dom zeroTime]
    ∧ monitorCycleActions dom ConnOutcome.verifyError
      = [Action.setGauge dom (-62135596800), Action.setTable dom zeroTime]
    ∧ monitorCycleActions dom (ConnOutcome.verified (c :: cs))
      = [Action.setGauge dom (timeUnix (chainMin c cs)),
         Action.setTable dom (chainMin c cs)] := by
  refine ⟨?_, ?_, rfl⟩ <;>
    simp [monitorCycleActions, probedTime, FindExpirationTime, timeUnix,
      zeroTime, unixToInternal]

theorem statusLess_eq_true_iff (table : Table) (d1 d2 : String) :
    statusLess table d1 d2 = true ↔
      lookupExp table d1 < lookupExp table d2
      ∨ (lookupExp table d1 = lookupExp table d2 ∧ goStrLt d1 d2 = true) := by
  unfold statusLess timeBefore
  by_cases he : lookupExp table d1 = lookupExp table d2
  · simp [he]
  · simp only [ne_eq, he, not_false_eq_true, if_true, decide_eq_true_eq]
    simp [he]

theorem statusLess_asymm (table : Table) (d1 d2 : String)
    (h : statusLess table d1 d2 = true) : statusLess table d2 d1 = false := by
  cases hb : statusLess table d2 d1
  · rfl
  · exfalso
    rcases (statusLess_eq_true_iff table d1 d2).mp h with h1 | ⟨h1, h1s⟩ <;>
      rcases (statusLess_eq_true_iff table d2 d1).mp hb with h2 | ⟨h2, h2s⟩
    · exact lt_asymm h1 h2
    · rw [h2] at h1
      exact lt_irrefl _ h1
    · rw [h1] at h2
      exact lt_irrefl _ h2
    · have hf := goStrLt_asymm d1 d2 h1s
      exact absurd (h2s.symm.trans hf) (by decide)

theorem statusLess_trans (table : Table) (d1 d2 d3 : String)
    (h1 : statusLess table d1 d2 = true) (h2 : statusLess table d2 d3 = true) :
    statusLess table d1 d3 = true := by
  rw [statusLess_eq_true_iff]
  rcases (statusLess_eq_true_iff table d1 d2).mp h1 with ha | ⟨ha, has⟩ <;>
    rcases (statusLess_eq_true_iff table d2 d3).mp h2 with hb | ⟨hb, hbs⟩
  · exact Or.inl (ha.trans hb)
  · exact Or.inl (lt_of_lt_of_eq ha hb)
  · exact Or.inl (lt_of_eq_of_lt ha hb)
  · exact Or.inr ⟨ha.trans hb, goStrLt_trans d1 d2 d3 has hbs⟩

theorem statusLess_eq_of_not (table : Table) (d1 d2 : String)
    (h1 : statusLess table d1 d2 = false) (h2 : statusLess table d2 d1 = false) :
    d1 = d2 := by
  have h1n : ¬ (lookupExp table d1 < lookupExp table d2
      ∨ (lookupExp table d1 = lookupExp table d2 ∧ goStrLt d1 d2 = true)) := by
    rw [← statusLess_eq_true_iff]
    simp [h1]
  have h2n : ¬ (lookupExp table d2 < lookupExp table d1
      ∨ (lookupExp table d2 = lookupExp table d1 ∧ goStrLt d2 d1 = true)) := by
    rw [← statusLess_eq_true_iff]
    simp [h2]
  push_neg at h1n h2n
  have he : lookupExp table d1 = lookupExp table d2 :=
    le_antisymm h2n.1 h1n.1
  have hg1 : goStrLt d1 d2 = false := by
    have := h1n.2 he
    simp at this
    exact this
  have hg2 : goStrLt d2 d1 = false := by
    have := h2n.2 he.symm
    simp at this
    exact this
  exact goStrLt_eq_of_not d1 d2 hg1 hg2

theorem statusLess_negtrans (table : Table) (x y z : String)
    (h1 : statusLess table y x = false) (h2 : statusLess table z y = false) :
    statusLess table z x = false := by
  cases hzx : statusLess table z x
  · rfl
  · exfalso
    cases hyz : statusLess table y z
    · have := statusLess_eq_of_not table z y h2 hyz
      rw [this] at hzx
      exact absurd (hzx.symm.trans h1) (by decide)
    · have := statusLess_trans table y z x hyz hzx
      exact absurd (this.symm.trans h1) (by decide)

theorem insertBy_perm {α : Type} (less : α → α → Bool) (a : α) :
    ∀ l : List α, List.Perm (insertBy less a l) (a :: l)
  | [] => List.Perm.refl _
  | b :: l => by
    simp only [insertBy]
    split
    · exact ((insertBy_perm less a l).cons b).trans (List.Perm.swap a b l)
    · exact List.Perm.refl _

theorem sortSlice_perm {α : Type} (less : α → α → Bool) :
    ∀ l : List α, List.Perm (sortSlice less l) l
  | [] => List.Perm.refl _
  | a :: l =>
    (insertBy_perm less a (sortSlice less l)).trans
      ((sortSlice_perm less l).cons a)

theorem insertBy_pairwise {α : Type} (less : α → α → Bool)
    (hasym : ∀ x y, less x y = true → less y x = false)
    (hnegtrans : ∀ x y z, less y x = false → less z y = false → less z x = false)
    (a : α) :
    ∀ l : List α, List.Pairwise (fun x y => less y x = false) l →
      List.Pairwise (fun x y => less y x = false) (insertBy less a l)
  | [], _ => by simp [insertBy]
  | b :: l, hp => by
    simp only [insertBy]
    rcases List.pairwise_cons.mp hp with ⟨hb, hl⟩
    split
    · next hba =>
      refine List.pairwise_cons.mpr ⟨?_, insertBy_pairwise less hasym hnegtrans a l hl⟩
      intro y hy
      rcases List.mem_cons.mp ((insertBy_perm less a l).mem_iff.mp hy) with hya | hyl
      · rw [hya]
        exact hasym b a hba
      · exact hb y hyl
    · next hba =>
      have hba2 : less b a = false := by
        cases hx : less b a
        · rfl
        · exact absurd hx hba
      refine List.pairwise_cons.mpr ⟨?_, hp⟩
      intro y hy
      rcases List.mem_cons.mp hy with hyb | hyl
      · rw [hyb]
        exact hba2
      · exact hnegtrans a b y hba2 (hb y hyl)

theorem sortSlice_pairwise {α : Type} (less : α → α → Bool)
    (hasym : ∀ x y, less x y = true → less y x = false)
    (hnegtrans : ∀ x y z, less y x = false → less z y = false → less z x = false) :
    ∀ l : List α, List.Pairwise (fun x y => less y x = false) (sortSlice less l)
  | [] => by simp [sortSlice]
  | a :: l =>
    insertBy_pairwise less hasym hnegtrans a (sortSlice less l)
      (sortSlice_pairwise less hasym hnegtrans l)

theorem sortSlice_eq_of_perm {α : Type} (less : α → α → Bool)
    (hasym : ∀ x y, less x y = true → less y x = false)
    (hnegtrans : ∀ x y z, less y x = false → less z y = false → less z x = false)
    (hantisym : ∀ x y, less x y = false → less y x = false → x = y)
    {l1 l2 : List α} (h : List.Perm l1 l2) :
    sortSlice less l1 = sortSlice less l2 := by
  haveI : IsAntisymm α (fun x y => less y x = false) :=
    ⟨fun a b h1 h2 => hantisym a b h2 h1⟩
  exact List.eq_of_perm_of_sorted
    ((sortSlice_perm less l1).trans (h.trans (sortSlice_perm less l2).symm))
    (sortSlice_pairwise less hasym hnegtrans l1)
    (sortSlice_pairwise less hasym hnegtrans l2)

theorem mem_handleStatusRows (table : Table) (iter : List String)
    (r : String × Time) (h : r ∈ handleStatusRows table iter) :
    r.1 ∈ iter ∧ r.2 = lookupExp table r.1 := by
  unfold handleStatusRows at h
  rcases List.mem_map.mp h with ⟨d, hd, heq⟩
  rw [← heq]
  exact ⟨(sortSlice_perm (statusLess table) iter).mem_iff.mp hd, rfl⟩

theorem handleStatusRows_pairwise (table : Table) (iter : List String)
    (hnd : iter.Nodup) :
    List.Pairwise specRowOrder (handleStatusRows table iter) := by
  have hpw := sortSlice_pairwise (statusLess table)
    (statusLess_asymm table) (statusLess_negtrans table) iter
  have hnd2 : List.Pairwise (fun x y => x ≠ y) (sortSlice (statusLess table) iter) :=
    ((sortSlice_perm (statusLess table) iter).nodup_iff).mpr hnd
  have hcomb := hpw.and hnd2
  unfold handleStatusRows sortDomains
  rw [List.pairwise_map]
  refine hcomb.imp ?_
  intro d1 d2 hd
  rcases hd with ⟨hless, hne⟩
  dsimp only [specRowOrder]
  have hno : ¬ (lookupExp table d2 < lookupExp table d1
      ∨ (lookupExp table d2 = lookupExp table d1 ∧ goStrLt d2 d1 = true)) := by
    rw [← statusLess_eq_true_iff]
    simp [hless]
  push_neg at hno
  by_cases he : lookupExp table d1 = lookupExp table d2
  · have hg21 : goStrLt d2 d1 = false := by
      have := hno.2 he.symm
      simp at this
      exact this
    cases hg12 : goStrLt d1 d2
    · exact absurd (goStrLt_eq_of_not d1 d2 hg12 hg21) hne
    · exact Or.inr ⟨he, rfl⟩
  · exact Or.inl (lt_of_le_of_ne hno.1 (fun hc => he hc))

/-- C4: for every table state and every iteration order on its (distinct)
keys, the domain list rendered by HandleStatus is sorted ascending by
expiration timestamp with ties broken by ascending lexicographic domain
name, lists exactly the iterated keys, and is the same list however the
keys were ordered by the map iteration. -/
theorem handleStatus_rows_sorted_deterministic (table : Table)
    (iter iter2 : List String) (hnd : iter.Nodup)
    (hperm : List.Perm iter iter2) :
    List.Pairwise specRowOrder (handleStatusRows table iter)
    ∧ List.Perm ((handleStatusRows table iter).map Prod.fst) iter
    ∧ handleStatusRows table iter = handleStatusRows table iter2 := by
  refine ⟨handleStatusRows_pairwise table iter hnd, ?_, ?_⟩
  · have hmap : (handleStatusRows table iter).map Prod.fst = sortDomains table iter := by
      unfold handleStatusRows
      rw [List.map_map]
      show List.map id (sortDomains table iter) = sortDomains table iter
      exact List.map_id _
    rw [hmap]
    exact sortSlice_perm (statusLess table) iter
  · unfold handleStatusRows sortDomains
    rw [sortSlice_eq_of_perm (statusLess table) (statusLess_asymm table)
      (statusLess_negtrans table) (statusLess_eq_of_not table) hperm]

/-- Witness for C4 on the worked example table, with the configured order
and a reordering of it as the two iteration orders. -/
theorem handleStatus_rows_sorted_deterministic_witness :
    (["b.example", "a.example", "c.example"] : List String).Nodup
    ∧ List.Perm ["b.example", "a.example", "c.example"]
        ["c.example", "b.example", "a.example"]
    ∧ (List.Pairwise specRowOrder
        (handleStatusRows exampleTable ["b.example", "a.example", "c.example"])
      ∧ List.Perm
          ((handleStatusRows exampleTable
            ["b.example", "a.example", "c.example"]).map Prod.fst)
          ["b.example", "a.example", "c.example"]
      ∧ handleStatusRows exampleTable ["b.example", "a.example", "c.example"]
        = handleStatusRows exampleTable ["c.example", "b.example", "a.example"]) :=
  ⟨by decide, by decide,
    handleStatus_rows_sorted_deterministic exampleTable
      ["b.example", "a.example", "c.example"]
      ["c.example", "b.example", "a.example"] (by decide) (by decide)⟩

/-- C5: every configured domain appears exactly once in the rendered rows;
a domain never successfully probed carries the zero-time value (the code
representation of an unknown expiration, rendered as the formatted zero
timestamp) and, provided every known expiration lies after the zero
instant, all unknown rows precede all known rows, the unknown rows ordered
among themselves by ascending domain name; on the worked example the
render order is c.example (unknown), a.example, b.example. -/
theorem handleStatus_unknown_first (table : Table) (iter : List String)
    (hnd : iter.Nodup)
    (hpos : ∀ d ∈ iter, lookupExp table d ≠ zeroTime → zeroTime < lookupExp table d) :
    List.Perm ((handleStatusRows table iter).map Prod.fst) iter
    ∧ List.Pairwise (fun r1 r2 => r1.2 ≠ zeroTime → r2.2 ≠ zeroTime)
        (handleStatusRows table iter)
    ∧ List.Pairwise
        (fun r1 r2 => r1.2 = zeroTime → r2.2 = zeroTime → goStrLt r1.1 r2.1 = true)
        (handleStatusRows table iter)
    ∧ handleStatusRows exampleTable ["b.example", "a.example", "c.example"]
      = [("c.example", zeroTime), ("a.example", t2025), ("b.example", t2030)] := by
  have hpw := handleStatusRows_pairwise table iter hnd
  refine ⟨?_, ?_, ?_, by decide⟩
  · have hmap : (handleStatusRows table iter).map Prod.fst = sortDomains table iter := by
      unfold handleStatusRows
      rw [List.map_map]
      show List.map id (sortDomains table iter) = sortDomains table iter
      exact List.map_id _
    rw [hmap]
    exact sortSlice_perm (statusLess table) iter
  · refine List.Pairwise.imp_of_mem ?_ hpw
    intro r1 r2 h1 h2 hso hr1
    rcases hso with hlt | ⟨heq, _⟩
    · have h1m := mem_handleStatusRows table iter r1 h1
      have hp1 : zeroTime < r1.2 := by
        rw [h1m.2]
        exact hpos r1.1 h1m.1 (h1m.2 ▸ hr1)
      intro hr2
      rw [hr2] at hlt
      exact absurd (hp1.trans hlt) (lt_irrefl _)
    · rw [← heq]
      exact hr1
  · refine hpw.imp ?_
    intro r1 r2 hso h1z h2z
    rcases hso with hlt | ⟨_, hg⟩
    · rw [h1z, h2z] at hlt
      exact absurd hlt (lt_irrefl _)
    · exact hg

/-- Witness for C5 on the worked example table and the configured
iteration order. -/
theorem handleStatus_unknown_first_witness :
    (["b.example", "a.example", "c.example"] : List String).Nodup
    ∧ (∀ d ∈ (["b.example", "a.example", "c.example"] : List String),
        lookupExp exampleTable d ≠ zeroTime → zeroTime < lookupExp exampleTable d)
    ∧ (List.Perm
        ((handleStatusRows exampleTable
          ["b.example", "a.example", "c.example"]).map Prod.fst)
        ["b.example", "a.example", "c.example"]
      ∧ List.Pairwise (fun r1 r2 => r1.2 ≠ zeroTime → r2.2 ≠ zeroTime)
          (handleStatusRows exampleTable ["b.example", "a.example", "c.example"])
      ∧ List.Pairwise
          (fun r1 r2 => r1.2 = zeroTime → r2.2 = zeroTime → goStrLt r1.1 r2.1 = true)
          (handleStatusRows exampleTable ["b.example", "a.example", "c.example"])
      ∧ handleStatusRows exampleTable ["b.example", "a.example", "c.example"]
        = [("c.example", zeroTime), ("a.example", t2025), ("b.example", t2030)]) :=
  ⟨by decide, by decide,
    handleStatus_unknown_first exampleTable
      ["b.example", "a.example", "c.example"] (by decide) (by decide)⟩

/-- C9: rendering is a pure, deterministic function of the table state:
two invocations of HandleStatus on the same table, each handed whatever
key order its map iteration produced, render identical rows, and the state
left behind is the table that was read — HandleStatus assigns nothing. -/
theorem handleStatus_pure_deterministic (table : Table)
    (iter1 iter2 : List String) (hperm : List.Perm iter1 iter2) :
    (handleStatus table iter1).2 = (handleStatus table iter2).2
    ∧ (handleStatus table iter1).1 = table := by
  refine ⟨?_, rfl⟩
  show handleStatusRows table iter1 = handleStatusRows table iter2
  unfold handleStatusRows sortDomains
  rw [sortSlice_eq_of_perm (statusLess table) (statusLess_asymm table)
    (statusLess_negtrans table) (statusLess_eq_of_not table) hperm]

/-- Witness for C9 on the worked example table and two iteration orders. -/
theorem handleStatus_pure_deterministic_witness :
    List.Perm ["a.example", "b.example", "c.example"]
      ["c.example", "a.example", "b.example"]
    ∧ ((handleStatus exampleTable ["a.example", "b.example", "c.example"]).2
        = (handleStatus exampleTable ["c.example", "a.example", "b.example"]).2
      ∧ (handleStatus exampleTable ["a.example", "b.example", "c.example"]).1
        = exampleTable) :=
  ⟨by decide,
    handleStatus_pure_deterministic exampleTable
      ["a.example", "b.example", "c.example"]
      ["c.example", "a.example", "b.example"] (by decide)⟩

theorem mem_readEvs : ∀ (n : Nat) (e : Ev), e ∈ readEvs n → e = Ev.readTable
  | 0, e => by simp [readEvs]
  | n + 1, e => by
    intro h
    rcases List.mem_cons.mp h with h | h
    · exact h
    · exact mem_readEvs n e h

theorem mem_rowEvs :
    ∀ (n : Nat) (e : Ev), e ∈ rowEvs n → e = Ev.readTable ∨ e = Ev.write
  | 0, e => by simp [rowEvs]
  | n + 1, e => by
    intro h
    rcases List.mem_cons.mp h with h | h
    · exact Or.inl h
    rcases List.mem_cons.mp h with h | h
    · exact Or.inr h
    · exact mem_rowEvs n e h

theorem annotate_noLockUnlock :
    ∀ (l tail : List Ev), (∀ e ∈ l, e ≠ Ev.lock ∧ e ≠ Ev.unlock) →
      annotate true (l ++ tail) = l.map (fun e => (e, true)) ++ annotate true tail
  | [], _, _ => rfl
  | e :: l, tail, h => by
    have he := h e (List.mem_cons_self e l)
    have hrest : ∀ x ∈ l, x ≠ Ev.lock ∧ x ≠ Ev.unlock :=
      fun x hx => h x (List.mem_cons_of_mem e hx)
    cases e with
    | lock => exact absurd rfl he.1
    | unlock => exact absurd rfl he.2
    | readTable =>
      simp only [List.cons_append, annotate, List.map_cons]
      exact congrArg _ (annotate_noLockUnlock l tail hrest)
    | write =>
      simp only [List.cons_append, annotate, List.map_cons]
      exact congrArg _ (annotate_noLockUnlock l tail hrest)

/-- C6 counterexample: already on a one-domain table, the HandleStatus
trace contains a write to the response that happens while the mutex is
held, so the claim that the critical section covers only map access and
never formatting or I/O — with a snapshot taken first — is false on the
code, whose deferred unlock runs only at return. -/
theorem handleStatus_write_under_lock_cex :
    (annotate false (handleStatusTrace 1 0)).all
      (fun p => !(p.1 == Ev.write) || !p.2) = false := by
  decide

/-- C6 amended: HandleStatus takes no snapshot; it acquires the mutex on
entry and holds it for the whole body, so every event of its trace other
than the initial lock acquisition — all map reads, the header, row and
footer writes, and the final deferred unlock — happens with the mutex
held. -/
theorem handleStatus_lock_held_throughout (n s : Nat) :
    (annotate false (handleStatusTrace n s)).all
      (fun p => (p.1 == Ev.lock) || p.2) = true := by
  have hmem : ∀ e ∈ readEvs n ++ readEvs s ++ (Ev.write :: rowEvs n) ++ [Ev.write],
      e ≠ Ev.lock ∧ e ≠ Ev.unlock := by
    intro e he
    rcases List.mem_append.mp he with he1 | he1
    rotate_left
    · simp at he1
      rw [he1]
      exact ⟨by simp, by simp⟩
    rcases List.mem_append.mp he1 with he2 | he2
    rotate_left
    · rcases List.mem_cons.mp he2 with he3 | he3
      · rw [he3]
        exact ⟨by simp, by simp⟩
      · rcases mem_rowEvs n e he3 with he4 | he4 <;> rw [he4] <;>
          exact ⟨by simp, by simp⟩
    rcases List.mem_append.mp he2 with he3 | he3 <;>
      rw [mem_readEvs _ e he3] <;> exact ⟨by simp, by simp⟩
  unfold handleStatusTrace
  simp only [annotate]
  rw [annotate_noLockUnlock _ _ hmem]
  simp [annotate, List.all_append]

/-- C8 counterexample: for the configured domain list [a.example,
a.example] the table holds a single pre-populated entry for a.example, but
NewCertMon spawns one monitoring goroutine per list element, so two
monitor tasks write that one key — not exactly one. -/
theorem newCertMon_duplicate_domains_cex :
    NewCertMonTable ["a.example", "a.example"] "a.example" = some zeroTime
    ∧ monitorsWriting ["a.example", "a.example"] "a.example" = 2
    ∧ (2 : Nat) ≠ 1 := by
  decide

theorem foldl_mapSet_lookup :
    ∀ (domains : List String) (t : Table) (k : String),
      (domains.foldl (fun t d => mapSet t d zeroTime) t) k
        = if k ∈ domains then some zeroTime else t k
  | [], t, k => by simp
  | d :: ds, t, k => by
    rw [List.foldl_cons, foldl_mapSet_lookup ds (mapSet t d zeroTime) k]
    by_cases hds : k ∈ ds
    · simp [hds, List.mem_cons]
    · by_cases hd : k = d
      · simp [hds, hd, mapSet]
      · simp [hds, hd, mapSet, List.mem_cons]

/-- C8 amended: provided the configured domain list is duplicate-free (the
default configuration is), the table key set is fixed at construction —
NewCertMon pre-populates exactly one zero entry per configured domain
before any probe, and no other key — exactly one monitoring goroutine
writes each key, a monitoring cycle never deletes a key, and the cycle of
the goroutine owning dom leaves every other key untouched. With
duplicates in the list, one goroutine per list element is spawned and a
key gains several writers, whence the counterexample. -/
theorem newCertMon_table_key_invariants (domains : List String)
    (hnd : domains.Nodup) (k dom : String) (conn : ConnOutcome) (table : Table)
    (hdom : (table dom).isSome = true) :
    (k ∈ domains →
      NewCertMonTable domains k = some zeroTime ∧ monitorsWriting domains k = 1)
    ∧ (k ∉ domains →
      NewCertMonTable domains k = none ∧ monitorsWriting domains k = 0)
    ∧ ((monitorCycleTable dom conn table k).isSome = (table k).isSome)
    ∧ (k ≠ dom → monitorCycleTable dom conn table k = table k) := by
  refine ⟨?_, ?_, ?_, ?_⟩
  · intro hk
    refine ⟨?_, List.count_eq_one_of_mem hnd hk⟩
    unfold NewCertMonTable
    rw [foldl_mapSet_lookup]
    simp [hk]
  · intro hk
    refine ⟨?_, List.count_eq_zero_of_not_mem hk⟩
    unfold NewCertMonTable
    rw [foldl_mapSet_lookup]
    simp [hk, emptyTable]
  · unfold monitorCycleTable
    cases probedTime (FindExpirationTime conn) with
    | none => rfl
    | some exp =>
      simp only [mapSet]
      by_cases hkd : k = dom
      · rw [if_pos hkd, hkd, hdom]
        rfl
      · rw [if_neg hkd]
  · intro hkd
    unfold monitorCycleTable
    cases probedTime (FindExpirationTime conn) with
    | none => rfl
    | some exp => simp [mapSet, hkd]

/-- Witness for C8 amended on the two-domain default-style configuration,
probing b.example with a failing dial. -/
theorem newCertMon_table_key_invariants_witness :
    (["a.example", "b.example"] : List String).Nodup
    ∧ ((NewCertMonTable ["a.example", "b.example"]) "b.example").isSome = true
    ∧ (("a.example" ∈ (["a.example", "b.example"] : List String) →
        NewCertMonTable ["a.example", "b.example"] "a.example" = some zeroTime
        ∧ monitorsWriting ["a.example", "b.example"] "a.example" = 1)
      ∧ ("a.example" ∉ (["a.example", "b.example"] : List String) →
        NewCertMonTable ["a.example", "b.example"] "a.example" = none
        ∧ monitorsWriting ["a.example", "b.example"] "a.example" = 0)
      ∧ ((monitorCycleTable "b.example" ConnOutcome.dialError
          (NewCertMonTable ["a.example", "b.example"]) "a.example").isSome
        = ((NewCertMonTable ["a.example", "b.example"]) "a.example").isSome)
      ∧ ("a.example" ≠ "b.example" →
        monitorCycleTable "b.example" ConnOutcome.dialError
          (NewCertMonTable ["a.example", "b.example"]) "a.example"
        = (NewCertMonTable ["a.example", "b.example"]) "a.example")) :=
  ⟨by decide, by decide,
    newCertMon_table_key_invariants ["a.example", "b.example"] (by decide)
      "a.example" "b.example" ConnOutcome.dialError
      (NewCertMonTable ["a.example", "b.example"]) (by decide)⟩

end Certmon
